import Mathlib

/-!
Shallow embedding of the slack-stream-webhook repository's core logic:

* `src/lru.js` — a typed LRU cache built from a doubly-linked node list plus a
  hash map from key to node.  Nodes are modelled as records in an explicit
  arena (`heap`, keyed by allocation id) so that the JS pointer mutations
  (`node.prev`, `node.next`, aliasing between the map and the list) are
  reproduced exactly.
* `src/index.js` — the block-merge engine (`upsertJob`, `getJobText`,
  `getJobEmoji`, `getCompletionTime`, `chunkEvery`, `partition`) and the
  eligibility decision of `getWorkflowRunFromWorkflowJob`.

JavaScript strings are Lean `String`s; `String.prototype.includes` and
`String.prototype.startsWith` are modelled through list infix/prefix on
`String.data`.  JS `Date` parsing is external, so job timestamps are carried
as epoch milliseconds (`Int`), which is what the JS code extracts via
`getTime()` before any arithmetic.  Fallible JS code (functions that `throw`)
returns `Except String _`.
-/

namespace SSW

/-- Model of `String.prototype.includes`: `pat` occurs contiguously in `s`. -/
def strContains (s pat : String) : Bool :=
  decide (pat.data <:+: s.data)

/-- Model of `String.prototype.startsWith`: `pre` is a prefix of `s`. -/
def strStartsWith (s pre : String) : Bool :=
  decide (pre.data <+: s.data)

/-- Model of `partition` from src/index.js lines 343-353: one pass pushing each item
onto `left` when the predicate is truthy, else onto `right`. -/
def partitionJs {α : Type} (l : List α) (p : α → Bool) : List α × List α :=
  match l with
  | [] => ([], [])
  | x :: xs =>
    let pr := partitionJs xs p
    if p x then (x :: pr.1, pr.2) else (pr.1, x :: pr.2)

/-- Recursion core of `chunkEvery`.  The loop of src/index.js lines 331-333
consumes at least one element per iteration (for a positive `count`), so it
runs at most `list.length` times; `fuel` carries that bound to make the
recursion structural.  All behaviour lemmas are stated about `chunkEvery`. -/
def chunkEveryGo {α : Type} (n : Nat) : List α → Nat → List (List α)
  | [], _ => []
  | _ :: _, 0 => []
  | x :: xs, fuel + 1 => (x :: xs).take n :: chunkEveryGo n ((x :: xs).drop n) fuel

/-- Model of `chunkEvery` from src/index.js lines 328-335: slices of `n` consecutive
items.  The JS loop does not terminate for `n = 0`; the code only ever calls
it with `n = 10`, and we return `[]` in that unreachable case. -/
def chunkEvery {α : Type} (l : List α) (n : Nat) : List (List α) :=
  if n == 0 then [] else chunkEveryGo n l l.length

/-- A Slack context-block element as used by the merge engine: only the
`type` and `text` fields are ever read or written. -/
structure Element where
  type : String
  text : String
deriving DecidableEq, Repr

/-- A Slack block: optional `block_id`, `type`, and its `elements`.  Blocks
that are not job-container blocks are opaque to the merge engine and pass
through unchanged. -/
structure Block where
  block_id : Option String
  type : String
  elements : List Element
deriving DecidableEq, Repr

/-- The fields of a GitHub `workflow_job` payload read by the merge engine.
`started_at`/`completed_at` are epoch milliseconds (the value the JS code
obtains via `new Date(_).getTime()`); `completed_at` is `none` when the JSON
field is null/absent. -/
structure Job where
  status : String
  conclusion : Option String
  html_url : String
  name : String
  started_at : Int
  completed_at : Option Int
deriving DecidableEq, Repr

/-- JS template-literal rendering of `job.conclusion` (null prints "null"). -/
def conclusionText : Option String → String
  | some s => s
  | none => "null"

/-- Model of `getJobEmoji` from src/index.js lines 278-289.  The fall-through of the
JS `if` chain (completed with an unrecognised conclusion, or any other
status) throws. -/
def getJobEmoji (job : Job) : Except String String :=
  if job.status == "queued" then .ok "slack-stream-pending"
  else if job.status == "in_progress" then .ok "slack-stream-running"
  else if job.status == "completed" && job.conclusion == some "success" then
    .ok "slack-stream-success"
  else if job.status == "completed" && job.conclusion == some "failure" then
    .ok "slack-stream-failure"
  else if job.status == "completed" && job.conclusion == some "cancelled" then
    .ok "slack-stream-cancelled"
  else
    .error ("unknown status: " ++ job.status ++ ", conclusion: "
      ++ conclusionText job.conclusion)

/-- Model of `String(seconds).padStart(2, '0')`. -/
def padTwo (s : String) : String :=
  if s.length ≥ 2 then s else String.mk (List.replicate (2 - s.length) '0') ++ s

/-- Model of `getCompletionTime` from src/index.js lines 294-303.  `Math.floor` of a
real division is `Int.fdiv`; the JS `%` operator is truncated remainder
(`Int.tmod`). -/
def getCompletionTime (job : Job) : Option String :=
  match job.completed_at with
  | none => none
  | some completedAt =>
    let durationMs := completedAt - job.started_at
    let durationSeconds := Int.fdiv durationMs 1000
    let minutes := Int.fdiv durationSeconds 60
    let seconds := Int.tmod durationSeconds 60
    some (toString minutes ++ ":" ++ padTwo (toString seconds))

/-- Model of `getJobText` from src/index.js lines 268-273. -/
def getJobText (job : Job) : Except String String :=
  (getJobEmoji job).map (fun emoji =>
    let suffix := match getCompletionTime job with
      | some t => " (" ++ t ++ ")"
      | none => ""
    ":" ++ emoji ++ ": <" ++ job.html_url ++ "|" ++ job.name ++ ">" ++ suffix)

/-- The partition predicate of `upsertJob`: `block.block_id?.startsWith('jobs')`
(undefined `block_id` is falsy). -/
def jobsBlockPred (b : Block) : Bool :=
  (b.block_id.map (fun s => strStartsWith s "jobs")).getD false

/-- The literal `` `<${job.html_url}|` `` that `upsertJob` searches for. -/
def urlPattern (url : String) : String := "<" ++ url ++ "|"

/-- An element is touched by `upsertJob` exactly when it is `mrkdwn` and its
text includes the job's url pattern (the condition guarding `updated = true`
in src/index.js lines 246-248). -/
def matchesUrl (url : String) (e : Element) : Bool :=
  e.type == "mrkdwn" && strContains e.text (urlPattern url)

/-- The regex test `/:slack-stream-(success|failure|cancelled):/` of
src/index.js line 249: the pattern has no anchors or metacharacters beyond
the alternation, so it holds iff one of the three literal emoji tokens
occurs in the text. -/
def isTerminalText (t : String) : Bool :=
  strContains t ":slack-stream-success:" || strContains t ":slack-stream-failure:"
    || strContains t ":slack-stream-cancelled:"

/-- The per-element body of the `map` in src/index.js lines 245-253. -/
def updateElement (url : String) (jobElement e : Element) : Element :=
  if e.type != "mrkdwn" then e
  else if !strContains e.text (urlPattern url) then e
  else if isTerminalText e.text then e
  else jobElement

/-- The flattened element sequence of all job-container blocks
(`jobsBlocks.flatMap(block => block.elements)`). -/
def jobsElements (blocks : List Block) : List Element :=
  ((partitionJs blocks jobsBlockPred).1.map Block.elements).flatten

/-- The block constructor of src/index.js lines 257-261 applied to the
enumerated chunks: `block_id` is `jobs` followed by the chunk index. -/
def mkJobsBlock (p : Nat × List Element) : Block :=
  { block_id := some ("jobs" ++ toString p.1), type := "context", elements := p.2 }

/-- The merged element sequence computed by `upsertJob` before re-chunking:
every element is passed through `updateElement`, and the new `jobElement` is
appended exactly when no element had `mrkdwn` type and included the url
pattern (the `updated` flag — note the flag is set even on the sticky
terminal branch). -/
def mergedElements (blocks : List Block) (url : String) (jobText : String) :
    List Element :=
  let jobElement : Element := { type := "mrkdwn", text := jobText }
  let flat := jobsElements blocks
  let mapped := flat.map (updateElement url jobElement)
  if flat.any (matchesUrl url) then mapped else mapped ++ [jobElement]

/-- Core of `upsertJob` from src/index.js lines 238-263, after the job's text has
been rendered: other blocks first, then the merged elements re-chunked in
groups of 10 with sequential `jobs{i}` identifiers. -/
def upsertJobCore (blocks : List Block) (url : String) (jobText : String) :
    List Block :=
  (partitionJs blocks jobsBlockPred).2 ++
    ((chunkEvery (mergedElements blocks url jobText) 10).enum.map mkJobsBlock)

/-- Model of `upsertJob` from src/index.js lines 238-263.  The only fallible step is
rendering `getJobText job` (line 244), which throws for an unknown
status/conclusion combination. -/
def upsertJob (blocks : List Block) (job : Job) : Except String (List Block) :=
  (getJobText job).map (fun txt => upsertJobCore blocks job.html_url txt)

/-- The flattened element sequence of the job-container blocks of an output. -/
def outJobsElements (out : List Block) : List Element :=
  ((out.filter jobsBlockPred).map Block.elements).flatten

/-! LRU cache (src/lru.js).  Node objects live in an arena `heap` keyed by
an allocation id; the JS `Map` is an association list from cache key to node
id, with `Map.get`/`Map.set`/`Map.delete` semantics. -/

/-- A linked-list node of the cache (src/lru.js lines 21-29): key, value and
the two link pointers, here as optional arena ids. -/
structure LRUNode (V : Type) where
  key : String
  value : V
  prev : Option Nat
  next : Option Nat
deriving DecidableEq, Repr

/-- The closed-over mutable state of `createTypedLRUCache`
(src/lru.js lines 37-44): `count`, the map, `head` and `tail`.  `heap` and
`nextId` realise JS object identity for the nodes; `max` is the configured
capacity. -/
structure LRUState (V : Type) where
  max : Nat
  count : Int
  heap : List (Nat × LRUNode V)
  map : List (String × Nat)
  head : Option Nat
  tail : Option Nat
  nextId : Nat
deriving DecidableEq, Repr

/-- Model of `Map.prototype.get` on an association list. -/
def assocGet {β : Type} (k : String) (m : List (String × β)) : Option β :=
  (m.find? (fun p => p.1 == k)).map Prod.snd

/-- Model of `Map.prototype.set`: replace the existing binding in place, else append. -/
def assocSet {β : Type} (k : String) (v : β) : List (String × β) → List (String × β)
  | [] => [(k, v)]
  | (k', v') :: rest =>
    if k' == k then (k, v) :: rest else (k', v') :: assocSet k v rest

/-- Model of `Map.prototype.delete`: remove the binding for `k` if present. -/
def assocDelete {β : Type} (k : String) : List (String × β) → List (String × β)
  | [] => []
  | (k', v') :: rest =>
    if k' == k then rest else (k', v') :: assocDelete k rest

/-- Read a node from the arena. -/
def heapGet {V : Type} (i : Nat) (h : List (Nat × LRUNode V)) : Option (LRUNode V) :=
  (h.find? (fun p => p.1 == i)).map Prod.snd

/-- Mutate the node with arena id `i` in place. -/
def heapSet {V : Type} (i : Nat) (f : LRUNode V → LRUNode V)
    (h : List (Nat × LRUNode V)) : List (Nat × LRUNode V) :=
  h.map (fun p => if p.1 == i then (p.1, f p.2) else p)

/-- The state right after `createTypedLRUCache` runs (src/lru.js lines 37-44). -/
def lruEmpty (V : Type) (max : Nat) : LRUState V :=
  { max := max, count := 0, heap := [], map := [], head := none, tail := none,
    nextId := 0 }

/-- Model of `insert` from src/lru.js lines 50-63: allocate a fresh node, bump
`count`, bind it in the map, and link it in as the new head. -/
def lruInsert {V : Type} (s : LRUState V) (key : String) (value : V) :
    LRUState V :=
  let i := s.nextId
  let node : LRUNode V := { key := key, value := value, prev := none, next := none }
  let s := { s with nextId := i + 1, count := s.count + 1,
                    map := assocSet key i s.map }
  match s.head with
  | none =>
    { s with heap := (i, node) :: s.heap, head := some i, tail := some i }
  | some h =>
    let heap := heapSet h (fun n => { n with prev := some i }) s.heap
    { s with heap := (i, { node with next := some h }) :: heap, head := some i }

/-- The tail of `use` (src/lru.js lines 79-82): `node.prev = null`,
`node.next = head`, `head.prev = node`, `head = node`. -/
def lruMoveToHead {V : Type} (s : LRUState V) (i : Nat) : LRUState V :=
  let heap := heapSet i (fun n => { n with prev := none, next := s.head }) s.heap
  let heap := match s.head with
    | some h => heapSet h (fun n => { n with prev := some i }) heap
    | none => heap
  { s with heap := heap, head := some i }

/-- Model of `use` from src/lru.js lines 68-83.  The `heapGet` miss branch is
unreachable: the map only ever holds ids of allocated nodes. -/
def lruUse {V : Type} (s : LRUState V) (key : String) : LRUState V :=
  match assocGet key s.map with
  | none => s
  | some i =>
    if s.head == some i then s
    else
      match heapGet i s.heap with
      | none => s
      | some nd =>
        if s.tail == some i then
          let heap := match nd.prev with
            | some p => heapSet p (fun n => { n with next := none }) s.heap
            | none => s.heap
          lruMoveToHead { s with heap := heap, tail := nd.prev } i
        else
          let heap := match nd.prev with
            | some p => heapSet p (fun n => { n with next := nd.next }) s.heap
            | none => s.heap
          let heap := match nd.next with
            | some nx => heapSet nx (fun n => { n with prev := nd.prev }) heap
            | none => heap
          lruMoveToHead { s with heap := heap } i

/-- Model of `evict` from src/lru.js lines 85-96, transcribed statement for
statement: unlink the tail, decrement `count`, and then — on the already
reassigned `tail` — `if (tail) map.delete(tail.key)`. -/
def lruEvict {V : Type} (s : LRUState V) : LRUState V :=
  match s.tail with
  | none => s
  | some t =>
    let s :=
      if s.head == some t then
        { s with head := none, tail := none }
      else
        let prevId := (heapGet t s.heap).bind LRUNode.prev
        let heap := match prevId with
          | some p => heapSet p (fun n => { n with next := none }) s.heap
          | none => s.heap
        { s with heap := heap, tail := prevId }
    let s := { s with count := s.count - 1 }
    match s.tail with
    | some t2 =>
      match heapGet t2 s.heap with
      | some nd2 => { s with map := assocDelete nd2.key s.map }
      | none => s
    | none => s

/-- Model of `get` from src/lru.js lines 102-107: map lookup, recency touch, then
return the node's value. -/
def lruGet {V : Type} (s : LRUState V) (key : String) : LRUState V × Option V :=
  match assocGet key s.map with
  | none => (s, none)
  | some i =>
    match heapGet i s.heap with
    | none => (s, none)
    | some nd =>
      let s' := lruUse s nd.key
      (s', (heapGet i s'.heap).map LRUNode.value)

/-- Model of `set` from src/lru.js lines 112-123.  `schema.parse(value)` is the
identity on values the schema accepts, which is the only case the claims
quantify over.  On a hit: overwrite the value, touch recency, re-`set` the
map binding.  On a miss at capacity: `evict()` then `insert`. -/
def lruSet {V : Type} (s : LRUState V) (key : String) (value : V) : LRUState V :=
  match assocGet key s.map with
  | some i =>
    let heap := heapSet i (fun n => { n with value := value }) s.heap
    let s := lruUse { s with heap := heap } key
    { s with map := assocSet key i s.map }
  | none =>
    let s := if s.count ≥ (s.max : Int) then lruEvict s else s
    lruInsert s key value

/-- The key sequence of the linked list from `head`, as the `entries()`
generator of src/lru.js lines 125-131 would walk it; fuelled because a
corrupted list need not be acyclic. -/
def lruKeysFrom {V : Type} (heap : List (Nat × LRUNode V)) :
    Option Nat → Nat → List String
  | _, 0 => []
  | none, _ => []
  | some i, fuel + 1 =>
    match heapGet i heap with
    | none => []
    | some nd => nd.key :: lruKeysFrom heap nd.next fuel

/-- The keys currently on the linked list, head to tail. -/
def lruKeys {V : Type} (s : LRUState V) : List String :=
  lruKeysFrom s.heap s.head (s.heap.length + 1)

/-! Eligibility (src/index.js lines 137-168). -/

/-- A YAML/JSON-like value as produced by `yaml.load`. -/
inductive YamlVal where
  | vNull
  | vBool (b : Bool)
  | vStr (s : String)
  | vInt (n : Int)
  | vObj (fields : List (String × YamlVal))
  | vArr (items : List YamlVal)

/-- The `data` of a successful `octokit.repos.getContent` call: either a
directory listing (a JS array) or a single entry object with its `type`,
optional `encoding` field, and base64 `content` payload. -/
inductive Content where
  | dir (entries : List String)
  | file (type : String) (encoding : Option String) (content : String)
deriving DecidableEq, Repr

/-- Model of `workflowYamlSchema.parse` (src/index.js line 137), i.e.
`z.object({ env: z.record(z.any()).optional() }).parse`: the input must be
an object; `env`, when present, must itself be an object (any values);
otherwise zod throws. -/
def parseWorkflowYaml (v : YamlVal) :
    Except String (Option (List (String × YamlVal))) :=
  match v with
  | .vObj fields =>
    match assocGet "env" fields with
    | none => .ok none
    | some (.vObj envFields) => .ok (some envFields)
    | some _ => .error "zod: env must be a record"
  | _ => .error "zod: expected object"

/-- Model of `getWorkflowRunFromWorkflowJob` from src/index.js lines 143-168.  The
two network calls and the yaml/base64 libraries are external collaborators,
so their outcomes are inputs: `runResult` is the `getWorkflowRunAttempt`
outcome, `contentResult` the `getContent` outcome, `base64Decode` the
`Buffer.from(_, 'base64').toString()` step and `yamlLoad` the `yaml.load`
call (which throws on malformed YAML).  An `Except.error` is a raised JS
exception propagating out of the (uncaught) `await`s; `.ok none` is the
function's own `return null`. -/
def getWorkflowRunFromWorkflowJob {ρ : Type} (runResult : Except String ρ)
    (contentResult : Except String Content)
    (base64Decode : String → String)
    (yamlLoad : String → Except String YamlVal) : Except String (Option ρ) :=
  match runResult with
  | .error e => .error e
  | .ok run =>
    match contentResult with
    | .error e => .error e
    | .ok (.dir _) => .ok none
    | .ok (.file ftype fencoding fcontent) =>
      if ftype != "file" then .ok none
      else
        match fencoding with
        | none => .ok none
        | some enc =>
          if enc == "base64" then
            match yamlLoad (base64Decode fcontent) with
            | .error e => .error e
            | .ok doc =>
              match parseWorkflowYaml doc with
              | .error e => .error e
              | .ok none => .ok none
              | .ok (some envFields) =>
                match assocGet "SLACK_STREAM" envFields with
                | some (.vBool true) => .ok (some run)
                | _ => .ok none
          else .ok none

/-- The capacity-2 trace `set a; set b; set c`: the third `set` finds the
cache at capacity and evicts. -/
def lruDemoC1 : LRUState Nat :=
  lruSet (lruSet (lruSet (lruEmpty Nat 2) "a" 1) "b" 2) "c" 3

/-- The capacity-1 trace `set a; set b`. -/
def lruDemoC2 : LRUState Nat :=
  lruSet (lruSet (lruEmpty Nat 1) "a" 1) "b" 2

/-- A terminal-state job used to instantiate theorems with hypotheses. -/
def demoJobSuccess : Job :=
  { status := "completed", conclusion := some "success",
    html_url := "http://example/job/1", name := "build",
    started_at := 0, completed_at := some 61000 }

/-- A queued-state job for the same url. -/
def demoJobQueued : Job :=
  { status := "queued", conclusion := none,
    html_url := "http://example/job/1", name := "build",
    started_at := 0, completed_at := none }

/-- A job element already showing the success emoji for the demo job's url. -/
def demoStickyElement : Element :=
  { type := "mrkdwn",
    text := ":slack-stream-success: <http://example/job/1|build> (1:01)" }

/-- A block list whose single job element is `demoStickyElement`. -/
def demoStickyBlocks : List Block :=
  [{ block_id := some "jobs0", type := "context",
     elements := [demoStickyElement] }]

/-! Helper lemmas. -/

theorem strContains_iff (s pat : String) :
    strContains s pat = true ↔ pat.data <:+: s.data :=
  decide_eq_true_iff

theorem strStartsWith_iff (s pre : String) :
    strStartsWith s pre = true ↔ pre.data <+: s.data :=
  decide_eq_true_iff

theorem strStartsWith_append (pre t : String) :
    strStartsWith (pre ++ t) pre = true := by
  rw [strStartsWith_iff, String.data_append]
  exact List.prefix_append _ _

theorem partitionJs_eq {α : Type} (l : List α) (p : α → Bool) :
    partitionJs l p = (l.filter p, l.filter (fun x => !p x)) := by
  induction l with
  | nil => rfl
  | cons x xs ih =>
    by_cases h : p x <;> simp [partitionJs, ih, List.filter_cons, h]

theorem mem_partitionJs_left {α : Type} {l : List α} {p : α → Bool} {x : α}
    (h : x ∈ (partitionJs l p).1) : p x = true := by
  rw [partitionJs_eq] at h
  exact (List.mem_filter.mp h).2

theorem mem_partitionJs_right {α : Type} {l : List α} {p : α → Bool} {x : α}
    (h : x ∈ (partitionJs l p).2) : p x = false := by
  rw [partitionJs_eq] at h
  simpa using (List.mem_filter.mp h).2

theorem partitionJs_append_split {α : Type} (l₁ l₂ : List α) (p : α → Bool)
    (h₁ : ∀ x ∈ l₁, p x = false) (h₂ : ∀ x ∈ l₂, p x = true) :
    partitionJs (l₁ ++ l₂) p = (l₂, l₁) := by
  rw [partitionJs_eq, List.filter_append, List.filter_append]
  rw [List.filter_eq_nil_iff.mpr (fun a ha => by simp [h₁ a ha]),
    List.filter_eq_self.mpr h₂,
    List.filter_eq_self.mpr (fun a ha => by simp [h₁ a ha]),
    List.filter_eq_nil_iff.mpr (fun a ha => by simp [h₂ a ha])]
  simp

theorem chunkEveryGo_fuel {α : Type} (n : Nat) (hn : 0 < n) :
    ∀ (fuel₁ : Nat) (fuel₂ : Nat) (l : List α), l.length ≤ fuel₁ →
      l.length ≤ fuel₂ → chunkEveryGo n l fuel₁ = chunkEveryGo n l fuel₂ := by
  intro fuel₁
  induction fuel₁ with
  | zero =>
    intro fuel₂ l h₁ h₂
    have : l = [] := by cases l <;> simp_all
    subst this
    cases fuel₂ <;> rfl
  | succ k ih =>
    intro fuel₂ l h₁ h₂
    cases l with
    | nil => cases fuel₂ <;> rfl
    | cons x xs =>
      cases fuel₂ with
      | zero => simp at h₂
      | succ k₂ =>
        show _ :: chunkEveryGo n ((x :: xs).drop n) k
          = _ :: chunkEveryGo n ((x :: xs).drop n) k₂
        have hd : ((x :: xs).drop n).length ≤ k := by
          simp only [List.length_drop] at *
          omega
        have hd₂ : ((x :: xs).drop n).length ≤ k₂ := by
          simp only [List.length_drop] at *
          omega
        rw [ih k₂ _ hd hd₂]

theorem chunkEvery_nil {α : Type} (n : Nat) : chunkEvery ([] : List α) n = [] := by
  unfold chunkEvery
  split
  · rfl
  · rfl

theorem chunkEvery_pos {α : Type} (l : List α) (n : Nat) (hl : l ≠ [])
    (hn : 0 < n) : chunkEvery l n = l.take n :: chunkEvery (l.drop n) n := by
  have hz : (n == 0) = false := by
    simp
    omega
  cases l with
  | nil => exact absurd rfl hl
  | cons x xs =>
    unfold chunkEvery
    simp only [hz, Bool.false_eq_true, if_false, List.length_cons]
    show (x :: xs).take n :: chunkEveryGo n ((x :: xs).drop n) xs.length = _
    congr 1
    exact chunkEveryGo_fuel n hn xs.length ((x :: xs).drop n).length _
      (by simp only [List.length_drop, List.length_cons]; omega) le_rfl

theorem chunkEvery_flatten_fuel {α : Type} (n : Nat) (hn : 0 < n) :
    ∀ (fuel : Nat) (l : List α), l.length ≤ fuel →
      (chunkEvery l n).flatten = l := by
  intro fuel
  induction fuel with
  | zero =>
    intro l hl
    have : l = [] := by cases l <;> simp_all
    subst this
    simp [chunkEvery_nil]
  | succ k ih =>
    intro l hl
    by_cases hnil : l = []
    · subst hnil; simp [chunkEvery_nil]
    · rw [chunkEvery_pos l n hnil hn]
      have hd : (l.drop n).length ≤ k := by
        simp only [List.length_drop]
        omega
      simp [ih (l.drop n) hd, List.take_append_drop]

theorem chunkEvery_flatten {α : Type} (l : List α) (n : Nat) (hn : 0 < n) :
    (chunkEvery l n).flatten = l :=
  chunkEvery_flatten_fuel n hn l.length l le_rfl

theorem chunkEvery_length_fuel {α : Type} (n : Nat) (hn : 0 < n) :
    ∀ (fuel : Nat) (l : List α), l.length ≤ fuel →
      (chunkEvery l n).length = (l.length + n - 1) / n := by
  intro fuel
  induction fuel with
  | zero =>
    intro l hl
    have : l = [] := by cases l <;> simp_all
    subst this
    simp [chunkEvery_nil, Nat.div_eq_of_lt (by omega : n - 1 < n)]
  | succ k ih =>
    intro l hl
    by_cases hnil : l = []
    · subst hnil
      simp [chunkEvery_nil, Nat.div_eq_of_lt (by omega : n - 1 < n)]
    · rw [chunkEvery_pos l n hnil hn]
      have hpos : 0 < l.length := List.length_pos.mpr hnil
      have hd : (l.drop n).length ≤ k := by
        simp only [List.length_drop]
        omega
      rw [List.length_cons, ih (l.drop n) hd, List.length_drop]
      have hre : l.length + n - 1 = (l.length - 1) + n := by omega
      rw [hre, Nat.add_div_right _ hn]
      have : (l.length - n + n - 1) / n = (l.length - 1) / n := by
        by_cases hle : l.length ≤ n
        · have h1 : l.length - n + n - 1 = n - 1 := by omega
          rw [h1, Nat.div_eq_of_lt (by omega : n - 1 < n),
            Nat.div_eq_of_lt (by omega : l.length - 1 < n)]
        · have h2 : l.length - n + n - 1 = l.length - 1 := by omega
          rw [h2]
      omega

theorem chunkEvery_length {α : Type} (l : List α) (n : Nat) (hn : 0 < n) :
    (chunkEvery l n).length = (l.length + n - 1) / n :=
  chunkEvery_length_fuel n hn l.length l le_rfl

theorem chunkEvery_mem_length_fuel {α : Type} (n : Nat) (hn : 0 < n) :
    ∀ (fuel : Nat) (l : List α), l.length ≤ fuel →
      ∀ c ∈ chunkEvery l n, c.length ≤ n := by
  intro fuel
  induction fuel with
  | zero =>
    intro l hl c hc
    have : l = [] := by cases l <;> simp_all
    subst this
    simp [chunkEvery_nil] at hc
  | succ k ih =>
    intro l hl c hc
    by_cases hnil : l = []
    · subst hnil; simp [chunkEvery_nil] at hc
    · rw [chunkEvery_pos l n hnil hn] at hc
      rcases List.mem_cons.mp hc with h | h
      · subst h
        simp [List.length_take]
      · exact ih (l.drop n) (by simp only [List.length_drop]; omega) c h

theorem chunkEvery_mem_length {α : Type} (l : List α) (n : Nat) (hn : 0 < n) :
    ∀ c ∈ chunkEvery l n, c.length ≤ n :=
  chunkEvery_mem_length_fuel n hn l.length l le_rfl

theorem updateElement_of_terminal {url : String} {je e : Element}
    (h : isTerminalText e.text = true) : updateElement url je e = e := by
  unfold updateElement
  split
  · rfl
  · split
    · rfl
    · simp [h]

theorem updateElement_of_not_contains {url : String} {je e : Element}
    (h : strContains e.text (urlPattern url) = false) :
    updateElement url je e = e := by
  unfold updateElement
  split
  · rfl
  · simp [h]

theorem updateElement_of_not_matches {url : String} {je e : Element}
    (h : matchesUrl url e = false) : updateElement url je e = e := by
  unfold matchesUrl at h
  cases h1 : (e.type == "mrkdwn") with
  | false =>
    unfold updateElement
    simp [h1]
    intro hc
    simp [hc] at h1
  | true =>
    rw [h1] at h
    simp only [Bool.true_and] at h
    exact updateElement_of_not_contains h

theorem updateElement_replaces {url : String} {je e : Element}
    (hm : matchesUrl url e = true) (ht : isTerminalText e.text = false) :
    updateElement url je e = je := by
  unfold matchesUrl at hm
  have h1 : (e.type == "mrkdwn") = true := by
    cases h : (e.type == "mrkdwn")
    · rw [h] at hm
      simp at hm
    · rfl
  have h2 : strContains e.text (urlPattern url) = true := by
    rw [h1] at hm
    simpa using hm
  unfold updateElement
  simp [h1, h2, ht]
  intro hc
  exact absurd (by simpa using h1) hc

theorem updateElement_cases (url : String) (je e : Element) :
    updateElement url je e = e ∨ updateElement url je e = je := by
  unfold updateElement
  split
  · exact Or.inl rfl
  · split
    · exact Or.inl rfl
    · split
      · exact Or.inl rfl
      · exact Or.inr rfl

theorem matchesUrl_updateElement {url : String} {je e : Element}
    (hm : matchesUrl url e = true) (hje : matchesUrl url je = true) :
    matchesUrl url (updateElement url je e) = true := by
  rcases updateElement_cases url je e with h | h <;> rw [h] <;> assumption

theorem updateElement_idem {url : String} {je e : Element}
    (hje : isTerminalText je.text = true) :
    updateElement url je (updateElement url je e) = updateElement url je e := by
  rcases updateElement_cases url je e with h | h <;> rw [h]
  · rw [h]
  · exact updateElement_of_terminal hje

theorem jobsBlockPred_mkJobsBlock (p : Nat × List Element) :
    jobsBlockPred (mkJobsBlock p) = true := by
  unfold jobsBlockPred mkJobsBlock
  simp only [Option.map_some', Option.getD_some]
  exact strStartsWith_append "jobs" (toString p.1)

theorem mergedElements_eq (blocks : List Block) (url txt : String) :
    mergedElements blocks url txt =
      if (jobsElements blocks).any (matchesUrl url) then
        (jobsElements blocks).map (updateElement url (Element.mk "mrkdwn" txt))
      else
        (jobsElements blocks).map (updateElement url (Element.mk "mrkdwn" txt))
          ++ [Element.mk "mrkdwn" txt] := rfl

theorem upsertJobCore_filter (blocks : List Block) (url txt : String) :
    (upsertJobCore blocks url txt).filter jobsBlockPred
      = (chunkEvery (mergedElements blocks url txt) 10).enum.map mkJobsBlock := by
  unfold upsertJobCore
  rw [List.filter_append]
  rw [List.filter_eq_nil_iff.mpr
    (fun b hb => by simp [mem_partitionJs_right hb])]
  rw [List.filter_eq_self.mpr (fun b hb => by
    rcases List.mem_map.mp hb with ⟨p, _, hp⟩
    rw [← hp]
    exact jobsBlockPred_mkJobsBlock p)]
  simp

theorem outJobsElements_core (blocks : List Block) (url txt : String) :
    outJobsElements (upsertJobCore blocks url txt)
      = mergedElements blocks url txt := by
  unfold outJobsElements
  rw [upsertJobCore_filter, List.map_map]
  have : (Block.elements ∘ mkJobsBlock) = Prod.snd := by
    funext p
    rfl
  rw [this, List.enum_map_snd]
  exact chunkEvery_flatten _ 10 (by omega)

theorem upsertJobCore_split (blocks : List Block) (url txt : String) :
    upsertJobCore blocks url txt
      = (partitionJs blocks jobsBlockPred).2 ++
          ((chunkEvery (mergedElements blocks url txt) 10).enum.map mkJobsBlock) :=
  rfl

theorem upsertJob_ok_elim {blocks : List Block} {job : Job} {out : List Block}
    (h : upsertJob blocks job = Except.ok out) :
    ∃ txt, getJobText job = Except.ok txt ∧
      out = upsertJobCore blocks job.html_url txt := by
  unfold upsertJob at h
  cases hg : getJobText job with
  | error e =>
    rw [hg] at h
    simp [Except.map] at h
  | ok txt =>
    rw [hg] at h
    simp [Except.map] at h
    exact ⟨txt, rfl, h.symm⟩

theorem jobText_data (emoji url nm sfx : String) :
    (":" ++ emoji ++ ": <" ++ url ++ "|" ++ nm ++ ">" ++ sfx).data
      = ':' :: (emoji.data ++ (':' :: ' ' :: '<' ::
          (url.data ++ ('|' :: (nm.data ++ ('>' :: sfx.data)))))) := by
  have h1 : (":" : String).data = [':'] := rfl
  have h2 : (": <" : String).data = [':', ' ', '<'] := rfl
  have h3 : ("|" : String).data = ['|'] := rfl
  have h4 : (">" : String).data = ['>'] := rfl
  simp [String.data_append, h1, h2, h3, h4]

theorem strContains_jobText_url (emoji url nm sfx : String) :
    strContains (":" ++ emoji ++ ": <" ++ url ++ "|" ++ nm ++ ">" ++ sfx)
      ("<" ++ url ++ "|") = true := by
  rw [strContains_iff, jobText_data]
  have hp : ("<" ++ url ++ "|").data = '<' :: (url.data ++ ['|']) := by
    have h1 : ("<" : String).data = ['<'] := rfl
    have h2 : ("|" : String).data = ['|'] := rfl
    simp [String.data_append, h1, h2]
  rw [hp]
  exact ⟨':' :: (emoji.data ++ [':', ' ']), nm.data ++ ('>' :: sfx.data), by simp⟩

theorem strContains_jobText_emoji (emoji url nm sfx pat : String)
    (hp : pat.data = ':' :: (emoji.data ++ [':'])) :
    strContains (":" ++ emoji ++ ": <" ++ url ++ "|" ++ nm ++ ">" ++ sfx) pat
      = true := by
  rw [strContains_iff, jobText_data, hp]
  exact ⟨[], ' ' :: '<' :: (url.data ++ ('|' :: (nm.data ++ ('>' :: sfx.data)))),
    by simp⟩

theorem getJobEmoji_terminal (j : Job) (hs : j.status = "completed")
    (hc : j.conclusion = some "success" ∨ j.conclusion = some "failure" ∨
      j.conclusion = some "cancelled") :
    ∃ em, getJobEmoji j = Except.ok em ∧
      (em = "slack-stream-success" ∨ em = "slack-stream-failure" ∨
        em = "slack-stream-cancelled") := by
  rcases hc with h | h | h
  · exact ⟨"slack-stream-success", by simp [getJobEmoji, hs, h], Or.inl rfl⟩
  · exact ⟨"slack-stream-failure", by simp [getJobEmoji, hs, h], Or.inr (Or.inl rfl)⟩
  · exact ⟨"slack-stream-cancelled", by simp [getJobEmoji, hs, h], Or.inr (Or.inr rfl)⟩

theorem getJobText_eq (j : Job) (em : String)
    (hem : getJobEmoji j = Except.ok em) :
    getJobText j = Except.ok (":" ++ em ++ ": <" ++ j.html_url ++ "|" ++ j.name
      ++ ">" ++ (match getCompletionTime j with
        | some t => " (" ++ t ++ ")"
        | none => "")) := by
  unfold getJobText
  rw [hem]
  rfl

theorem getJobText_terminal (j : Job) (hs : j.status = "completed")
    (hc : j.conclusion = some "success" ∨ j.conclusion = some "failure" ∨
      j.conclusion = some "cancelled") :
    ∃ txt, getJobText j = Except.ok txt ∧ isTerminalText txt = true ∧
      strContains txt (urlPattern j.html_url) = true := by
  obtain ⟨em, hem, hcase⟩ := getJobEmoji_terminal j hs hc
  refine ⟨_, getJobText_eq j em hem, ?_, ?_⟩
  · rcases hcase with h | h | h <;> subst h
    · have hcon := strContains_jobText_emoji "slack-stream-success" j.html_url
        j.name (match getCompletionTime j with
          | some t => " (" ++ t ++ ")"
          | none => "") ":slack-stream-success:" rfl
      unfold isTerminalText
      rw [hcon]
      simp
    · have hcon := strContains_jobText_emoji "slack-stream-failure" j.html_url
        j.name (match getCompletionTime j with
          | some t => " (" ++ t ++ ")"
          | none => "") ":slack-stream-failure:" rfl
      unfold isTerminalText
      rw [hcon]
      simp
    · have hcon := strContains_jobText_emoji "slack-stream-cancelled" j.html_url
        j.name (match getCompletionTime j with
          | some t => " (" ++ t ++ ")"
          | none => "") ":slack-stream-cancelled:" rfl
      unfold isTerminalText
      rw [hcon]
      simp
  · unfold urlPattern
    exact strContains_jobText_url em j.html_url j.name _

theorem partitionJs_upsertJobCore (blocks : List Block) (url txt : String) :
    partitionJs (upsertJobCore blocks url txt) jobsBlockPred
      = ((chunkEvery (mergedElements blocks url txt) 10).enum.map mkJobsBlock,
         (partitionJs blocks jobsBlockPred).2) := by
  rw [upsertJobCore_split]
  exact partitionJs_append_split _ _ _
    (fun b hb => mem_partitionJs_right hb)
    (fun b hb => by
      rcases List.mem_map.mp hb with ⟨p, _, hp⟩
      rw [← hp]
      exact jobsBlockPred_mkJobsBlock p)

theorem jobsElements_upsertJobCore (blocks : List Block) (url txt : String) :
    jobsElements (upsertJobCore blocks url txt)
      = mergedElements blocks url txt := by
  unfold jobsElements
  rw [partitionJs_upsertJobCore, List.map_map]
  have hcomp : (Block.elements ∘ mkJobsBlock) = Prod.snd := funext (fun p => rfl)
  rw [hcomp, List.enum_map_snd]
  exact chunkEvery_flatten _ 10 (by omega)

theorem mergedElements_core_idem (blocks : List Block) (url txt : String)
    (hterm : isTerminalText txt = true)
    (hmatch : strContains txt (urlPattern url) = true) :
    mergedElements (upsertJobCore blocks url txt) url txt
      = mergedElements blocks url txt := by
  have hje : matchesUrl url (Element.mk "mrkdwn" txt) = true := by
    unfold matchesUrl
    simp [hmatch]
  have hany : (mergedElements blocks url txt).any (matchesUrl url) = true := by
    rw [mergedElements_eq]
    by_cases h : (jobsElements blocks).any (matchesUrl url)
    · rw [if_pos h]
      rcases List.any_eq_true.mp h with ⟨e, he, hme⟩
      exact List.any_eq_true.mpr ⟨updateElement url (Element.mk "mrkdwn" txt) e,
        List.mem_map_of_mem _ he, matchesUrl_updateElement hme hje⟩
    · rw [if_neg h]
      exact List.any_eq_true.mpr ⟨Element.mk "mrkdwn" txt, by simp, hje⟩
  have hfix : ∀ e ∈ mergedElements blocks url txt,
      updateElement url (Element.mk "mrkdwn" txt) e = e := by
    intro e he
    rw [mergedElements_eq] at he
    by_cases h : (jobsElements blocks).any (matchesUrl url)
    · rw [if_pos h] at he
      rcases List.mem_map.mp he with ⟨e0, _, he0⟩
      rw [← he0]
      exact updateElement_idem hterm
    · rw [if_neg h] at he
      rcases List.mem_append.mp he with h1 | h1
      · rcases List.mem_map.mp h1 with ⟨e0, _, he0⟩
        rw [← he0]
        exact updateElement_idem hterm
      · have he' : e = Element.mk "mrkdwn" txt := by simpa using h1
        rw [he']
        exact updateElement_of_terminal hterm
  rw [mergedElements_eq (upsertJobCore blocks url txt), jobsElements_upsertJobCore,
    if_pos hany]
  calc (mergedElements blocks url txt).map
        (updateElement url (Element.mk "mrkdwn" txt))
      = (mergedElements blocks url txt).map (fun e => e) :=
        List.map_congr_left hfix
    _ = mergedElements blocks url txt := by simp

theorem upsertJobCore_idem (blocks : List Block) (url txt : String)
    (hterm : isTerminalText txt = true)
    (hmatch : strContains txt (urlPattern url) = true) :
    upsertJobCore (upsertJobCore blocks url txt) url txt
      = upsertJobCore blocks url txt := by
  rw [upsertJobCore_split (upsertJobCore blocks url txt),
    mergedElements_core_idem blocks url txt hterm hmatch,
    partitionJs_upsertJobCore]
  exact (upsertJobCore_split blocks url txt).symm

theorem getWRFWJ_file_base64 {ρ : Type} (run : ρ) (body : String)
    (dec : String → String) (yload : String → Except String YamlVal) :
    getWorkflowRunFromWorkflowJob (Except.ok run)
        (Except.ok (Content.file "file" (some "base64") body)) dec yload
      = (match yload (dec body) with
          | .error e => .error e
          | .ok doc =>
            match parseWorkflowYaml doc with
            | .error e => .error e
            | .ok none => .ok none
            | .ok (some envFields) =>
              match assocGet "SLACK_STREAM" envFields with
              | some (.vBool true) => .ok (some run)
              | _ => .ok none) := rfl

/-! Claim theorems. -/

/-- C1: refuted by the code — on the capacity-2 trace `set a; set b; set c`
the third `set` evicts while `a` is the least-recently-used tail.  The list
does lose exactly the tail node `a` and `count` is decremented, but because
`evict` reassigns `tail` before `map.delete(tail.key)`, the map deletes the
surviving key `b` instead of the evicted key `a`: afterwards `get "a"`
still returns the evicted value and `get "b"` — a key still on the list —
returns absent, so eviction does not remove the evicted entry from both
structures. -/
theorem lru_eviction_deletes_wrong_key :
    lruKeys lruDemoC1 = ["c", "b"] ∧
    lruDemoC1.count = 2 ∧
    lruDemoC1.map.map Prod.fst = ["a", "c"] ∧
    (lruGet lruDemoC1 "a").2 = some 1 ∧
    (lruGet lruDemoC1 "b").2 = none := by
  refine ⟨?_, ?_, ?_, ?_, ?_⟩ <;> rfl

/-- C2: refuted by the code — with capacity `m = 1`, after `set a; set b`
the hash map holds the two entries `a` and `b`: the eviction performed by
the second `set` never deletes the evicted single node's key from the map
(when `head === tail` the reassigned `tail` is null, so `map.delete` is
skipped), and the subsequent insert adds a second binding. -/
theorem lru_map_exceeds_capacity :
    lruDemoC2.max = 1 ∧
    lruDemoC2.map.map Prod.fst = ["a", "b"] ∧
    1 < lruDemoC2.map.length := by
  refine ⟨?_, ?_, ?_⟩ <;> first | rfl | decide

/-- C6: `getJobEmoji` returns the pending token for status `queued` (any
conclusion), the running token for `in_progress` (any conclusion), the
success/failure/cancelled tokens for `completed` with the matching
conclusion, and it raises an error exactly on every `(status, conclusion)`
combination outside this fixed table. -/
theorem getJobEmoji_table (j : Job) :
    (j.status = "queued" → getJobEmoji j = Except.ok "slack-stream-pending") ∧
    (j.status = "in_progress" → getJobEmoji j = Except.ok "slack-stream-running") ∧
    (j.status = "completed" → j.conclusion = some "success" →
      getJobEmoji j = Except.ok "slack-stream-success") ∧
    (j.status = "completed" → j.conclusion = some "failure" →
      getJobEmoji j = Except.ok "slack-stream-failure") ∧
    (j.status = "completed" → j.conclusion = some "cancelled" →
      getJobEmoji j = Except.ok "slack-stream-cancelled") ∧
    ((∃ msg, getJobEmoji j = Except.error msg) ↔
      ¬(j.status = "queued" ∨ j.status = "in_progress" ∨
        (j.status = "completed" ∧ (j.conclusion = some "success" ∨
          j.conclusion = some "failure" ∨ j.conclusion = some "cancelled")))) := by
  refine ⟨fun h => by simp [getJobEmoji, h],
    fun h => by simp [getJobEmoji, h],
    fun h hc => by simp [getJobEmoji, h, hc],
    fun h hc => by simp [getJobEmoji, h, hc],
    fun h hc => by simp [getJobEmoji, h, hc], ?_, ?_⟩
  · rintro ⟨msg, hmsg⟩ hcon
    rcases hcon with h | h | ⟨h, hc⟩
    · simp [getJobEmoji, h] at hmsg
    · simp [getJobEmoji, h] at hmsg
    · rcases hc with hc | hc | hc <;> simp [getJobEmoji, h, hc] at hmsg
  · intro hcon
    push_neg at hcon
    obtain ⟨h1, h2, h3⟩ := hcon
    have hb1 : (j.status == "queued") = false := beq_eq_false_iff_ne.mpr h1
    have hb2 : (j.status == "in_progress") = false := beq_eq_false_iff_ne.mpr h2
    by_cases hs : j.status = "completed"
    · obtain ⟨h4, h5, h6⟩ := h3 hs
      have hb4 : (j.conclusion == some "success") = false :=
        beq_eq_false_iff_ne.mpr h4
      have hb5 : (j.conclusion == some "failure") = false :=
        beq_eq_false_iff_ne.mpr h5
      have hb6 : (j.conclusion == some "cancelled") = false :=
        beq_eq_false_iff_ne.mpr h6
      refine ⟨"unknown status: " ++ j.status ++ ", conclusion: "
        ++ conclusionText j.conclusion, ?_⟩
      simp [getJobEmoji, hb1, hb2, hs, hb4, hb5, hb6]
    · have hb3 : (j.status == "completed") = false := beq_eq_false_iff_ne.mpr hs
      refine ⟨"unknown status: " ++ j.status ++ ", conclusion: "
        ++ conclusionText j.conclusion, ?_⟩
      simp [getJobEmoji, hb1, hb2, hb3]

/-- Witness for C6: the table theorem instantiated at a concrete queued job. -/
theorem getJobEmoji_table_witness :
    getJobEmoji demoJobQueued = Except.ok "slack-stream-pending" :=
  (getJobEmoji_table demoJobQueued).1 rfl

/-- C3: terminal states are sticky.  If an `mrkdwn` element of the job
blocks contains the url pattern of `job` and already encodes a terminal
emoji, then applying `upsertJob` with that `job` in a non-terminal state
(queued or in progress) keeps the element unchanged in the output's job
elements, at the same position. -/
theorem upsertJob_sticky_terminal (blocks : List Block) (job : Job)
    (e : Element) (out : List Block)
    (hst : job.status = "queued" ∨ job.status = "in_progress")
    (hty : e.type = "mrkdwn")
    (hurl : strContains e.text (urlPattern job.html_url) = true)
    (hterm : isTerminalText e.text = true)
    (hout : upsertJob blocks job = Except.ok out) :
    (∀ i : Nat, (jobsElements blocks)[i]? = some e →
      (outJobsElements out)[i]? = some e) ∧
    (e ∈ jobsElements blocks → e ∈ outJobsElements out) := by
  obtain ⟨txt, htxt, rfl⟩ := upsertJob_ok_elim hout
  have hme : matchesUrl job.html_url e = true := by
    unfold matchesUrl
    simp [hty, hurl]
  have hupd : updateElement job.html_url (Element.mk "mrkdwn" txt) e = e :=
    updateElement_of_terminal hterm
  constructor
  · intro i hi
    have hmem : e ∈ jobsElements blocks := by
      rcases List.getElem?_eq_some.mp hi with ⟨hlt, hge⟩
      exact hge ▸ List.getElem_mem hlt
    have hany : (jobsElements blocks).any (matchesUrl job.html_url) = true :=
      List.any_eq_true.mpr ⟨e, hmem, hme⟩
    rw [outJobsElements_core, mergedElements_eq, if_pos hany,
      List.getElem?_map, hi]
    simp [hupd]
  · intro hmem
    have hany : (jobsElements blocks).any (matchesUrl job.html_url) = true :=
      List.any_eq_true.mpr ⟨e, hmem, hme⟩
    rw [outJobsElements_core, mergedElements_eq, if_pos hany]
    exact List.mem_map.mpr ⟨e, hmem, hupd⟩

/-- Witness for C3: a queued update for a job whose element already shows
success leaves the block list unchanged. -/
theorem upsertJob_sticky_terminal_witness :
    (∀ i : Nat, (jobsElements demoStickyBlocks)[i]? = some demoStickyElement →
      (outJobsElements demoStickyBlocks)[i]? = some demoStickyElement) ∧
    (demoStickyElement ∈ jobsElements demoStickyBlocks →
      demoStickyElement ∈ outJobsElements demoStickyBlocks) :=
  upsertJob_sticky_terminal demoStickyBlocks demoJobQueued demoStickyElement
    demoStickyBlocks (Or.inl rfl) rfl (by decide) (by decide) (by rfl)

/-- C7: `upsertJob` is idempotent for a job in a terminal state (completed
with conclusion success, failure or cancelled): the first application
succeeds with some output, and applying `upsertJob` again with the same
job returns exactly that output. -/
theorem upsertJob_terminal_idempotent (blocks : List Block) (job : Job)
    (hs : job.status = "completed")
    (hc : job.conclusion = some "success" ∨ job.conclusion = some "failure" ∨
      job.conclusion = some "cancelled") :
    ∃ out, upsertJob blocks job = Except.ok out ∧
      upsertJob out job = Except.ok out := by
  obtain ⟨txt, htxt, hterm, hmatch⟩ := getJobText_terminal job hs hc
  refine ⟨upsertJobCore blocks job.html_url txt, ?_, ?_⟩
  · unfold upsertJob
    rw [htxt]
    rfl
  · unfold upsertJob
    rw [htxt]
    simp only [Except.map]
    rw [upsertJobCore_idem blocks job.html_url txt hterm hmatch]

/-- Witness for C7: idempotence at a concrete successful job. -/
theorem upsertJob_terminal_idempotent_witness :
    ∃ out, upsertJob [] demoJobSuccess = Except.ok out ∧
      upsertJob out demoJobSuccess = Except.ok out :=
  upsertJob_terminal_idempotent [] demoJobSuccess rfl (Or.inl rfl)

/-- C4: chunking invariant.  When `upsertJob` succeeds, its output contains
exactly `ceil(n / 10)` job-container blocks for `n` the length of the merged
element sequence, each block holds at most 10 elements, concatenating the
blocks' element lists in order reproduces the merged sequence, and the i-th
job-container block carries the sequential identifier `jobs` ++ `i`. -/
theorem upsertJob_chunking (blocks : List Block) (job : Job) (txt : String)
    (out : List Block)
    (htxt : getJobText job = Except.ok txt)
    (hout : upsertJob blocks job = Except.ok out) :
    (out.filter jobsBlockPred).length
        = ((mergedElements blocks job.html_url txt).length + 9) / 10 ∧
    (∀ b ∈ out.filter jobsBlockPred, b.elements.length ≤ 10) ∧
    ((out.filter jobsBlockPred).map Block.elements).flatten
        = mergedElements blocks job.html_url txt ∧
    (∀ (i : Nat) (b : Block), (out.filter jobsBlockPred)[i]? = some b →
        b.block_id = some ("jobs" ++ toString i)) := by
  obtain ⟨txt', htxt', rfl⟩ := upsertJob_ok_elim hout
  rw [htxt] at htxt'
  have htt : txt = txt' := by simpa using htxt'
  subst htt
  refine ⟨?_, ?_, ?_, ?_⟩
  · rw [upsertJobCore_filter, List.length_map, List.enum_length,
      chunkEvery_length _ 10 (by omega)]
    omega
  · intro b hb
    rw [upsertJobCore_filter] at hb
    rcases List.mem_map.mp hb with ⟨p, hp, hbp⟩
    rcases p with ⟨i, c⟩
    rcases List.mem_enum hp with ⟨hilt, hceq⟩
    have hcmem : c ∈ chunkEvery (mergedElements blocks job.html_url txt) 10 :=
      hceq ▸ List.getElem_mem hilt
    rw [← hbp]
    exact chunkEvery_mem_length _ 10 (by omega) c hcmem
  · exact outJobsElements_core blocks job.html_url txt
  · intro i b hib
    rw [upsertJobCore_filter, List.getElem?_map] at hib
    cases he : (chunkEvery (mergedElements blocks job.html_url txt) 10).enum[i]? with
    | none =>
      rw [he] at hib
      simp at hib
    | some p =>
      rw [he] at hib
      simp only [Option.map_some'] at hib
      rw [List.getElem?_enum] at he
      cases hc : (chunkEvery (mergedElements blocks job.html_url txt) 10)[i]? with
      | none =>
        rw [hc] at he
        simp at he
      | some c =>
        rw [hc] at he
        simp only [Option.map_some'] at he
        have hpc : (i, c) = p := Option.some.inj he
        have hb2 : mkJobsBlock p = b := Option.some.inj hib
        rw [← hb2, ← hpc]
        rfl

/-- Witness for C4: the block-count equation at a concrete input. -/
theorem upsertJob_chunking_witness :
    (demoStickyBlocks.filter jobsBlockPred).length
      = ((mergedElements demoStickyBlocks demoJobQueued.html_url
          ":slack-stream-pending: <http://example/job/1|build>").length + 9) / 10 :=
  (upsertJob_chunking demoStickyBlocks demoJobQueued
    ":slack-stream-pending: <http://example/job/1|build>" demoStickyBlocks
    rfl rfl).1

/-- C9: frame property.  When `upsertJob` succeeds, the non-job blocks come
back unchanged and first (followed only by job-container blocks); every job
element whose text does not contain the job's url pattern reappears
unchanged at the same index of the output's job-element sequence; and no
element is removed (the element sequence never shrinks). -/
theorem upsertJob_frame (blocks : List Block) (job : Job) (txt : String)
    (out : List Block)
    (htxt : getJobText job = Except.ok txt)
    (hout : upsertJob blocks job = Except.ok out) :
    (∀ b ∈ (partitionJs blocks jobsBlockPred).2, jobsBlockPred b = false) ∧
    (∃ rest, out = (partitionJs blocks jobsBlockPred).2 ++ rest ∧
      ∀ b ∈ rest, jobsBlockPred b = true) ∧
    (∀ (i : Nat) (e : Element), (jobsElements blocks)[i]? = some e →
      strContains e.text (urlPattern job.html_url) = false →
      (outJobsElements out)[i]? = some e) ∧
    (jobsElements blocks).length ≤ (outJobsElements out).length := by
  obtain ⟨txt', htxt', rfl⟩ := upsertJob_ok_elim hout
  rw [htxt] at htxt'
  have htt : txt = txt' := by simpa using htxt'
  subst htt
  refine ⟨fun b hb => mem_partitionJs_right hb,
    ⟨(chunkEvery (mergedElements blocks job.html_url txt) 10).enum.map mkJobsBlock,
      upsertJobCore_split blocks job.html_url txt, fun b hb => ?_⟩, ?_, ?_⟩
  · rcases List.mem_map.mp hb with ⟨p, _, hp⟩
    rw [← hp]
    exact jobsBlockPred_mkJobsBlock p
  · intro i e hi hnc
    have hupd : updateElement job.html_url (Element.mk "mrkdwn" txt) e = e :=
      updateElement_of_not_contains hnc
    rw [outJobsElements_core, mergedElements_eq]
    by_cases hany : (jobsElements blocks).any (matchesUrl job.html_url) = true
    · rw [if_pos hany, List.getElem?_map, hi]
      simp [hupd]
    · rw [if_neg hany]
      obtain ⟨hlt', _⟩ := List.getElem?_eq_some.mp hi
      have hlt : i < ((jobsElements blocks).map
          (updateElement job.html_url (Element.mk "mrkdwn" txt))).length := by
        rw [List.length_map]
        exact hlt'
      rw [List.getElem?_append, if_pos hlt, List.getElem?_map, hi]
      simp [hupd]
  · rw [outJobsElements_core, mergedElements_eq]
    by_cases hany : (jobsElements blocks).any (matchesUrl job.html_url) = true
    · rw [if_pos hany, List.length_map]
    · rw [if_neg hany]
      simp only [List.length_append, List.length_map, List.length_cons,
        List.length_nil]
      omega

/-- Witness for C9: the no-shrinking conjunct at a concrete input. -/
theorem upsertJob_frame_witness :
    (jobsElements demoStickyBlocks).length
      ≤ (outJobsElements demoStickyBlocks).length :=
  (upsertJob_frame demoStickyBlocks demoJobQueued
    ":slack-stream-pending: <http://example/job/1|build>" demoStickyBlocks
    rfl rfl).2.2.2

/-- C10: behaviour with several elements for the same url.  When some
element matches the job's url (mrkdwn type and url pattern in the text),
the output's job elements are exactly the input elements mapped through
`updateElement` — same length, nothing appended — where every matching
non-terminal element becomes the identical new job element, every matching
terminal element stays unchanged, and every non-matching element stays
unchanged.  A new element is appended only when no element matches. -/
theorem upsertJob_url_matching (blocks : List Block) (job : Job) (txt : String)
    (out : List Block)
    (htxt : getJobText job = Except.ok txt)
    (hout : upsertJob blocks job = Except.ok out) :
    ((jobsElements blocks).any (matchesUrl job.html_url) = true →
      outJobsElements out = (jobsElements blocks).map
        (updateElement job.html_url (Element.mk "mrkdwn" txt)) ∧
      (outJobsElements out).length = (jobsElements blocks).length) ∧
    ((jobsElements blocks).any (matchesUrl job.html_url) = false →
      outJobsElements out = jobsElements blocks ++ [Element.mk "mrkdwn" txt]) ∧
    (∀ e : Element, matchesUrl job.html_url e = true →
      isTerminalText e.text = true →
      updateElement job.html_url (Element.mk "mrkdwn" txt) e = e) ∧
    (∀ e : Element, matchesUrl job.html_url e = true →
      isTerminalText e.text = false →
      updateElement job.html_url (Element.mk "mrkdwn" txt) e
        = Element.mk "mrkdwn" txt) ∧
    (∀ e : Element, matchesUrl job.html_url e = false →
      updateElement job.html_url (Element.mk "mrkdwn" txt) e = e) := by
  obtain ⟨txt', htxt', rfl⟩ := upsertJob_ok_elim hout
  rw [htxt] at htxt'
  have htt : txt = txt' := by simpa using htxt'
  subst htt
  refine ⟨?_, ?_, fun e _ ht => updateElement_of_terminal ht,
    fun e hm ht => updateElement_replaces hm ht,
    fun e hm => updateElement_of_not_matches hm⟩
  · intro h
    rw [outJobsElements_core, mergedElements_eq, if_pos h]
    exact ⟨rfl, List.length_map _ _⟩
  · intro h
    rw [outJobsElements_core, mergedElements_eq, if_neg (by simp [h])]
    have hid : (jobsElements blocks).map
        (updateElement job.html_url (Element.mk "mrkdwn" txt))
        = jobsElements blocks := by
      calc (jobsElements blocks).map
            (updateElement job.html_url (Element.mk "mrkdwn" txt))
          = (jobsElements blocks).map (fun e => e) :=
            List.map_congr_left (fun e he => updateElement_of_not_matches
              (by simpa using List.any_eq_false.mp h e he))
        _ = jobsElements blocks := by simp
    rw [hid]

/-- Witness for C10: on the sticky demo input some element matches, so the
output is the mapped element list and nothing is appended. -/
theorem upsertJob_url_matching_witness :
    outJobsElements demoStickyBlocks
      = (jobsElements demoStickyBlocks).map
          (updateElement demoJobQueued.html_url (Element.mk "mrkdwn"
            ":slack-stream-pending: <http://example/job/1|build>")) ∧
    (outJobsElements demoStickyBlocks).length
      = (jobsElements demoStickyBlocks).length :=
  (upsertJob_url_matching demoStickyBlocks demoJobQueued
    ":slack-stream-pending: <http://example/job/1|build>" demoStickyBlocks
    rfl rfl).1 (by rfl)

/-- C5 counterexample: the claim that a parse failure makes the function
return absent rather than raise is false — `yaml.load`'s exception
propagates out of the (uncaught) call, so on a well-formed base64 file whose
body fails to parse the function raises instead of returning null. -/
theorem eligibility_parse_failure_raises :
    @getWorkflowRunFromWorkflowJob Nat (Except.ok 7)
        (Except.ok (Content.file "file" (some "base64") "body")) (fun s => s)
        (fun _ => Except.error "bad yaml")
      = Except.error "bad yaml" ∧
    ¬ @getWorkflowRunFromWorkflowJob Nat (Except.ok 7)
        (Except.ok (Content.file "file" (some "base64") "body")) (fun s => s)
        (fun _ => Except.error "bad yaml")
      = Except.ok none := by
  constructor
  · rfl
  · intro h
    have h' : (Except.error "bad yaml" : Except String (Option Nat))
        = Except.ok none := h
    exact Except.noConfusion h'

/-- C5 amended: the eligibility check admits the run (returns it) iff the
fetched content is a single file entry with `type = "file"`, a present
`encoding = "base64"`, whose decoded body YAML-loads successfully and
zod-parses to an object whose `env` section maps `SLACK_STREAM` to the
exact boolean `true`.  All of the following return absent (`null`) rather
than raising: a present flag with the string value "true" or any other
value different from boolean true, a missing flag, a missing `env` section,
a directory listing, a non-file type, and a missing or non-base64 encoding.
By contrast a fetch failure of either network call, a YAML load failure, or
a zod schema failure propagates as a raised exception instead of returning
absent. -/
theorem eligibility_characterization {ρ : Type} (run : ρ)
    (c : Except String Content) (dec : String → String)
    (yload : String → Except String YamlVal) :
    (getWorkflowRunFromWorkflowJob (Except.ok run) c dec yload
        = Except.ok (some run) ↔
      ∃ body doc env, c = Except.ok (Content.file "file" (some "base64") body) ∧
        yload (dec body) = Except.ok doc ∧
        parseWorkflowYaml doc = Except.ok (some env) ∧
        assocGet "SLACK_STREAM" env = some (YamlVal.vBool true)) ∧
    (∀ e : String,
      @getWorkflowRunFromWorkflowJob ρ (Except.error e) c dec yload
        = Except.error e) ∧
    (∀ e : String, c = Except.error e →
      getWorkflowRunFromWorkflowJob (Except.ok run) c dec yload
        = Except.error e) ∧
    (∀ body e, c = Except.ok (Content.file "file" (some "base64") body) →
      yload (dec body) = Except.error e →
      getWorkflowRunFromWorkflowJob (Except.ok run) c dec yload
        = Except.error e) ∧
    (∀ body doc e, c = Except.ok (Content.file "file" (some "base64") body) →
      yload (dec body) = Except.ok doc → parseWorkflowYaml doc = Except.error e →
      getWorkflowRunFromWorkflowJob (Except.ok run) c dec yload
        = Except.error e) ∧
    (∀ body doc env, c = Except.ok (Content.file "file" (some "base64") body) →
      yload (dec body) = Except.ok doc →
      parseWorkflowYaml doc = Except.ok (some env) →
      assocGet "SLACK_STREAM" env = some (YamlVal.vStr "true") →
      getWorkflowRunFromWorkflowJob (Except.ok run) c dec yload
        = Except.ok none) ∧
    (∀ es, c = Except.ok (Content.dir es) →
      getWorkflowRunFromWorkflowJob (Except.ok run) c dec yload
        = Except.ok none) ∧
    (∀ ftype fencoding body, c = Except.ok (Content.file ftype fencoding body) →
      ftype ≠ "file" →
      getWorkflowRunFromWorkflowJob (Except.ok run) c dec yload
        = Except.ok none) ∧
    (∀ body, c = Except.ok (Content.file "file" none body) →
      getWorkflowRunFromWorkflowJob (Except.ok run) c dec yload
        = Except.ok none) ∧
    (∀ enc body, c = Except.ok (Content.file "file" (some enc) body) →
      enc ≠ "base64" →
      getWorkflowRunFromWorkflowJob (Except.ok run) c dec yload
        = Except.ok none) ∧
    (∀ body doc, c = Except.ok (Content.file "file" (some "base64") body) →
      yload (dec body) = Except.ok doc →
      parseWorkflowYaml doc = Except.ok none →
      getWorkflowRunFromWorkflowJob (Except.ok run) c dec yload
        = Except.ok none) ∧
    (∀ body doc env, c = Except.ok (Content.file "file" (some "base64") body) →
      yload (dec body) = Except.ok doc →
      parseWorkflowYaml doc = Except.ok (some env) →
      assocGet "SLACK_STREAM" env = none →
      getWorkflowRunFromWorkflowJob (Except.ok run) c dec yload
        = Except.ok none) ∧
    (∀ body doc env v, c = Except.ok (Content.file "file" (some "base64") body) →
      yload (dec body) = Except.ok doc →
      parseWorkflowYaml doc = Except.ok (some env) →
      assocGet "SLACK_STREAM" env = some v → v ≠ YamlVal.vBool true →
      getWorkflowRunFromWorkflowJob (Except.ok run) c dec yload
        = Except.ok none) := by
  refine ⟨⟨?_, ?_⟩, fun e => rfl, ?_, ?_, ?_, ?_, ?_, ?_, ?_, ?_, ?_, ?_, ?_⟩
  · intro h
    cases c with
    | error e => simp [getWorkflowRunFromWorkflowJob] at h
    | ok cv =>
      cases cv with
      | dir es => simp [getWorkflowRunFromWorkflowJob] at h
      | file ftype fencoding fcontent =>
        by_cases hft : ftype = "file"
        · subst hft
          cases fencoding with
          | none => simp [getWorkflowRunFromWorkflowJob] at h
          | some enc =>
            by_cases henc : enc = "base64"
            · subst henc
              rw [getWRFWJ_file_base64] at h
              cases hy : yload (dec fcontent) with
              | error e =>
                simp only [hy] at h
                exact Except.noConfusion h
              | ok doc =>
                simp only [hy] at h
                cases hp : parseWorkflowYaml doc with
                | error e =>
                  simp only [hp] at h
                  exact Except.noConfusion h
                | ok envOpt =>
                  simp only [hp] at h
                  cases envOpt with
                  | none => simp at h
                  | some env =>
                    cases ha : assocGet "SLACK_STREAM" env with
                    | none =>
                      simp only [ha] at h
                      simp at h
                    | some v =>
                      simp only [ha] at h
                      cases v with
                      | vBool b =>
                        cases b with
                        | true => exact ⟨fcontent, doc, env, rfl, hy, hp, ha⟩
                        | false => simp at h
                      | vNull => simp at h
                      | vStr s => simp at h
                      | vInt n => simp at h
                      | vObj fs => simp at h
                      | vArr its => simp at h
            · have hb : (enc == "base64") = false := beq_eq_false_iff_ne.mpr henc
              simp [getWorkflowRunFromWorkflowJob, hb] at h
        · have hb : (ftype != "file") = true := by
            simp [hft]
          simp [getWorkflowRunFromWorkflowJob, hb] at h
  · rintro ⟨body, doc, env, rfl, hy, hp, ha⟩
    rw [getWRFWJ_file_base64]
    simp only [hy, hp, ha]
  · intro e hc
    subst hc
    rfl
  · intro body e hc hy
    subst hc
    rw [getWRFWJ_file_base64]
    simp only [hy]
  · intro body doc e hc hy hp
    subst hc
    rw [getWRFWJ_file_base64]
    simp only [hy, hp]
  · intro body doc env hc hy hp ha
    subst hc
    rw [getWRFWJ_file_base64]
    simp only [hy, hp, ha]
  · intro es hc
    subst hc
    rfl
  · intro ftype fencoding body hc hne
    subst hc
    have hb : (ftype != "file") = true := by
      simp [hne]
    simp [getWorkflowRunFromWorkflowJob, hb]
  · intro body hc
    subst hc
    rfl
  · intro enc body hc hne
    subst hc
    have hb : (enc == "base64") = false := beq_eq_false_iff_ne.mpr hne
    simp [getWorkflowRunFromWorkflowJob, hb]
  · intro body doc hc hy hp
    subst hc
    rw [getWRFWJ_file_base64]
    simp only [hy, hp]
  · intro body doc env hc hy hp ha
    subst hc
    rw [getWRFWJ_file_base64]
    simp only [hy, hp, ha]
  · intro body doc env v hc hy hp ha hne
    subst hc
    rw [getWRFWJ_file_base64]
    simp only [hy, hp, ha]
    cases v with
    | vBool b =>
      cases b with
      | true => exact absurd rfl hne
      | false => rfl
    | vNull => rfl
    | vStr s => rfl
    | vInt n => rfl
    | vObj fs => rfl
    | vArr its => rfl

/-- Witness for C5: a concrete eligible input is admitted. -/
theorem eligibility_characterization_witness :
    @getWorkflowRunFromWorkflowJob Nat (Except.ok 7)
        (Except.ok (Content.file "file" (some "base64") "body")) (fun s => s)
        (fun _ => Except.ok (YamlVal.vObj
          [("env", YamlVal.vObj [("SLACK_STREAM", YamlVal.vBool true)])]))
      = Except.ok (some 7) :=
  (eligibility_characterization 7
    (Except.ok (Content.file "file" (some "base64") "body")) (fun s => s)
    (fun _ => Except.ok (YamlVal.vObj
      [("env", YamlVal.vObj [("SLACK_STREAM", YamlVal.vBool true)])]))).1.mpr
    ⟨"body", YamlVal.vObj [("env", YamlVal.vObj [("SLACK_STREAM", YamlVal.vBool true)])],
      [("SLACK_STREAM", YamlVal.vBool true)], rfl, rfl, rfl, rfl⟩

end SSW
